import Mathlib

/-! Formal model of the tiliqua C++ simulation-harness device drivers:
the TDM/I2S audio driver (`gateware/src/tb_cpp/i2s.h` and its inlined
revision in `gateware/src/top/dsp/sim_dsp_core.cpp`), the PSRAM driver
(`gateware/src/tb_cpp/psram.h`), the DVI capture driver
(`gateware/src/tb_cpp/dvi.h` and the coordinate-signal variant in
`gateware/src/top/vectorscope_no_soc/sim/sim.cpp`), and the
multi-clock-domain scheduler loop shared by the harness mains.
Machine integers are modelled as `Nat`/`Int` with explicit wrap-around
where the C++ types wrap. -/

namespace Tiliqua

/-- Two's-complement truncation of an integer to a signed 16-bit value,
modelling the C++ conversion of an `int` to `int16_t`. -/
def toInt16 (x : Int) : Int :=
  if 32768 ≤ x % 65536 then x % 65536 - 65536 else x % 65536

/-- Bit `j` of a natural number (0 or 1), written arithmetically. -/
def encBit (u : Nat) (j : Nat) : Nat := u / 2 ^ j % 2

/-- The 16-bit two's-complement pattern of a sample value. -/
def enc16 (v : Int) : Nat := (v % 65536).toNat

/-- The 32-bit two's-complement pattern of a sample value; for an
`int16_t` promoted to `int` this is its sign extension. -/
def enc32 (v : Int) : Nat := (v % 4294967296).toNat

/-- MSB-first assembly of a list of data bits into a natural number. -/
def assemble_bits (bits : List Nat) : Nat := bits.foldl (fun a b => 2 * a + b) 0

/-! ## Audio bus device model (I2SDriver)

Translated from `struct ChannelState` and class `I2SDriver` in
`gateware/src/tb_cpp/i2s.h`; the revision embedded in
`gateware/src/top/dsp/sim_dsp_core.cpp` is identical except for the
frame start slot (0 instead of 2) and the slot progression direction
(down instead of up), captured by `I2SConfig`. -/

/-- Per TDM slot state (`I2SDriver::ChannelState`).  `inject_queue` is a
`std::queue<int16_t>` with its front at the list head; `captured` is a
`std::vector<int16_t>`; `current_rx_sample` is a `uint32_t`. -/
structure ChannelState where
  inject_queue : List Int
  captured : List Int
  current_tx_sample : Int
  current_rx_sample : Nat
  tx_active : Bool
deriving Repr, DecidableEq

/-- The default-constructed channel state of the C++ struct. -/
def ChannelState.idle : ChannelState := ⟨[], [], 0, 0, false⟩

/-- Compile-time configuration distinguishing the two driver revisions:
`tb_cpp/i2s.h` starts a frame at slot 2 and counts slots up
(`(c+1) % 4`); `top/dsp/sim_dsp_core.cpp` starts at slot 0 and counts
down (`c == 0 ? 3 : c-1`). -/
structure I2SConfig where
  start_slot : Nat
  count_up : Bool

/-- Configuration of the `tb_cpp/i2s.h` revision. -/
def i2sHeaderCfg : I2SConfig := ⟨2, true⟩

/-- Configuration of the `top/dsp/sim_dsp_core.cpp` revision. -/
def dspCoreCfg : I2SConfig := ⟨0, false⟩

/-- Full driver state.  `sdout` is the value most recently driven onto
`dut->i2s_sdout1`.  `setup_log` is a ghost field recording, in order,
the slot argument of every `start_channel_transmission` call; it is
written exactly where the C++ performs the call and read nowhere, so it
does not influence the modelled behaviour. -/
structure I2SState where
  channels : Nat → ChannelState
  current_channel : Nat
  bit_counter : Nat
  last_lrck : Bool
  last_bick : Bool
  sdout : Nat
  setup_log : List Nat

/-- The signal values the driver reads from the DUT on one edge call. -/
structure I2SIn where
  lrck : Bool
  bick : Bool
  sdin : Nat

/-- Driver state at construction time. -/
def I2SState.start : I2SState :=
  ⟨fun _ => ChannelState.idle, 0, 0, false, false, 0, []⟩

/-- `I2SDriver::start_channel_transmission`. -/
def start_channel_transmission (ch : Nat) (st : I2SState) : I2SState :=
  let st := { st with setup_log := st.setup_log ++ [ch] }
  let cs := st.channels ch
  match cs.inject_queue with
  | s :: rest =>
      let cs := { cs with current_tx_sample := s, inject_queue := rest, tx_active := true }
      { st with channels := Function.update st.channels ch cs }
  | [] =>
      let cs := { cs with tx_active := false }
      { st with channels := Function.update st.channels ch cs }

/-- Slot progression on a slot boundary: `(c+1) % N_CHANNELS` in
i2s.h, `(c == 0) ? N_CHANNELS-1 : c-1` in sim_dsp_core.cpp. -/
def slot_advance (up : Bool) (c : Nat) : Nat :=
  if up then (c + 1) % 4 else if c = 0 then 3 else c - 1

/-- The LRCK-rising (frame start) block of `post_edge`: set the current
channel to the configured start slot, zero the bit counter, and run
transmission setup for that slot. -/
def frame_start (cfg : I2SConfig) (st : I2SState) : I2SState :=
  start_channel_transmission cfg.start_slot
    { st with current_channel := cfg.start_slot, bit_counter := 0 }

/-- The BICK-falling slot-progress block of `post_edge`: increment the
bit counter; when it reaches SLOT_BITS (32), reset it and advance to
the next slot, running transmission setup for the new slot. -/
def bick_fall_progress (cfg : I2SConfig) (st : I2SState) : I2SState :=
  let st := { st with bit_counter := st.bit_counter + 1 }
  if 32 ≤ st.bit_counter then
    let c := slot_advance cfg.count_up st.current_channel
    start_channel_transmission c { st with bit_counter := 0, current_channel := c }
  else st

/-- The receive shift of `handle_rx_bit`:
`cs.current_rx_sample = (cs.current_rx_sample << 1) | (dut->i2s_sdin1 & 1)`
on `uint32_t`, so the shift wraps mod 2^32. -/
def rx_shift_in (cs : ChannelState) (sd : Nat) : ChannelState :=
  { cs with current_rx_sample := ((cs.current_rx_sample <<< 1) % 4294967296) ||| (sd &&& 1) }

/-- The final-bit correction of `handle_rx_bit`:
`sample = (sample > 16384) ? (sample - 32769) : sample` (the FIXME-d
conversion workaround in the C++). -/
def rx_correct (s : Int) : Int := if 16384 < s then s - 32769 else s

/-- The final-bit branch of `handle_rx_bit`: shift the last bit in,
then `(acc << 16) >> 16` on `uint32_t` keeps `acc % 2^16` and the
`static_cast` chain down to `int16_t` wraps that pattern into a signed
16-bit value (`toInt16`); apply the correction, append the value
(converted back to `int16_t` by `push_back` after the promoted-int
left shift `sample << 1`), and clear the accumulator.  The C++ stores
the shifted accumulator and then overwrites it with 0; only the net
effect (accumulator cleared) is kept. -/
def rx_finalize (cs : ChannelState) (sd : Nat) : ChannelState :=
  let acc := ((cs.current_rx_sample <<< 1) % 4294967296) ||| (sd &&& 1)
  let sample := rx_correct (toInt16 ((acc % 65536 : Nat) : Int))
  { cs with captured := cs.captured ++ [toInt16 (2 * sample)], current_rx_sample := 0 }

/-- `I2SDriver::handle_rx_bit`. -/
def handle_rx_bit (inp : I2SIn) (st : I2SState) : I2SState :=
  if st.bit_counter < 16 then
    if st.bit_counter = 15 then
      let cs := rx_finalize (st.channels st.current_channel) inp.sdin
      { st with channels := Function.update st.channels st.current_channel cs }
    else
      let cs := rx_shift_in (st.channels st.current_channel) inp.sdin
      { st with channels := Function.update st.channels st.current_channel cs }
  else st

/-- `I2SDriver::handle_tx_bit`.  The C++ expression is
`(cs.current_tx_sample >> (SAMPLE_BITS - bit_counter)) & 1` where the
`int16_t` operand is promoted to `int`, so `>>` is an arithmetic shift
(floor division by a power of two) and `& 1` is the residue mod 2. -/
def handle_tx_bit (st : I2SState) : I2SState :=
  if st.bit_counter < 16 ∧ (st.channels st.current_channel).tx_active = true then
    { st with sdout := (((st.channels st.current_channel).current_tx_sample.fdiv
                          (2 ^ (16 - st.bit_counter))) % 2).toNat }
  else
    { st with sdout := 0 }

/-- `I2SDriver::post_edge`.  The four conditional blocks run in source
order; all edge detections compare the fresh DUT signals against the
`last_lrck`/`last_bick` members, which are only updated at the end. -/
def post_edge (cfg : I2SConfig) (inp : I2SIn) (st : I2SState) : I2SState :=
  let st1 := if inp.lrck ≠ st.last_lrck ∧ inp.lrck = true then frame_start cfg st else st
  let st2 := if st.last_bick = true ∧ inp.bick = false then bick_fall_progress cfg st1 else st1
  let st3 := if st.last_bick = false ∧ inp.bick = true then handle_rx_bit inp st2 else st2
  let st4 := if st.last_bick = true ∧ inp.bick = false then handle_tx_bit st3 else st3
  { st4 with last_lrck := inp.lrck, last_bick := inp.bick }

/-- `I2SDriver::inject_sample`. -/
def inject_sample (ch : Nat) (v : Int) (st : I2SState) : I2SState :=
  if ch < 4 then
    let cs := { st.channels ch with inject_queue := (st.channels ch).inject_queue ++ [v] }
    { st with channels := Function.update st.channels ch cs }
  else st

/-- `I2SDriver::get_captured_samples`. -/
def get_captured_samples (st : I2SState) (ch : Nat) : List Int :=
  if ch < 4 then (st.channels ch).captured else []

/-- One bit-clock period as the scheduler delivers it to `post_edge`: a
rising edge carrying input bit `b`, then a falling edge, with the LRCK
line steady at level `lv` throughout. -/
def bit_period (cfg : I2SConfig) (lv : Bool) (b : Nat) (st : I2SState) : I2SState :=
  post_edge cfg ⟨lv, false, 0⟩ (post_edge cfg ⟨lv, true, b⟩ st)

/-- A sequence of bit-clock periods feeding the given data bits. -/
def run_periods (cfg : I2SConfig) (lv : Bool) (bits : List Nat) (st : I2SState) : I2SState :=
  bits.foldl (fun s b => bit_period cfg lv b s) st

/-- MSB-first assembly starting from an existing accumulator value. -/
def assemble_from (a : Nat) (bits : List Nat) : Nat := bits.foldl (fun a b => 2 * a + b) a

/-- Projection of one bit-clock period onto the
(current channel, bit counter) pair. -/
def proj_step (up : Bool) (p : Nat × Nat) : Nat × Nat :=
  if 32 ≤ p.2 + 1 then (slot_advance up p.1, 0) else (p.1, p.2 + 1)

/-- The slots whose transmission setup runs during one bit-clock
period, as a function of the (channel, counter) pair. -/
def proj_setups (up : Bool) (p : Nat × Nat) : List Nat :=
  if 32 ≤ p.2 + 1 then [slot_advance up p.1] else []

/-- Iterated (channel, counter) projection. -/
def proj_iter (up : Bool) : Nat → Nat × Nat → Nat × Nat
  | 0, p => p
  | n + 1, p => proj_iter up n (proj_step up p)

/-- Concatenated setup slots over `n` bit-clock periods. -/
def proj_trace (up : Bool) : Nat → Nat × Nat → List Nat
  | 0, _ => []
  | n + 1, p => proj_setups up p ++ proj_trace up n (proj_step up p)

/-- An external interaction with the audio driver: a `post_edge` call
with given DUT signal values, or an `inject_sample` call. -/
inductive I2SEvent where
  | edge : I2SIn → I2SEvent
  | inject : Nat → Int → I2SEvent

/-- Apply one interaction to the driver state. -/
def i2s_apply (cfg : I2SConfig) (st : I2SState) : I2SEvent → I2SState
  | .edge inp => post_edge cfg inp st
  | .inject ch v => inject_sample ch v st

/-- The driver state after an arbitrary run of interactions starting
from the freshly constructed driver. -/
def i2s_run (cfg : I2SConfig) (evs : List I2SEvent) : I2SState :=
  evs.foldl (i2s_apply cfg) I2SState.start

/-- Every value in every channel's captured-sample list is even. -/
def CapturedEven (st : I2SState) : Prop :=
  ∀ c, ∀ v ∈ (st.channels c).captured, v % 2 = 0

/-- The edge-call sequence of a run of bit-clock periods, as driver
interaction events (rising edge with a data bit, then falling edge). -/
def period_events (bits : List Nat) : List I2SEvent :=
  (bits.map (fun b =>
    [I2SEvent.edge ⟨false, true, b⟩, I2SEvent.edge ⟨false, false, 0⟩])).flatten

/-- A concrete driver state mid-slot: channel 0 transmitting sample 1,
bit counter 14, a bit-clock falling edge pending. -/
def c1WitnessState : I2SState :=
  ⟨Function.update (fun _ => ChannelState.idle) 0 ⟨[], [], 1, 0, true⟩,
    0, 14, false, true, 0, []⟩

/-! ## Memory device model (PSRAMDriver)

Translated from `gateware/src/tb_cpp/psram.h`; the same logic is
inlined in the `PSRAM_SIM` block of
`gateware/src/top/dsp/sim_dsp_core.cpp`. -/

/-- The backing store size allocated by the driver (32 MiB). -/
def psram_size_bytes : Nat := 33554432

/-- Signals the PSRAM driver reads from the DUT on one edge call. -/
structure PSRAMIn where
  clk_sync : Bool
  read_ready : Bool
  write_ready : Bool
  address_ptr : Nat
  write_data : Nat
  idle : Nat

/-- PSRAM driver state: the byte store and the value last presented on
the DUT's `read_data_view` input, plus the utilisation counters. -/
structure PSRAMState where
  mem : Nat → Nat
  read_data_view : Nat
  idle_hi : Nat
  idle_lo : Nat

/-- State after the constructor: the store is zero-filled by `memset`. -/
def PSRAMState.start : PSRAMState := ⟨fun _ => 0, 0, 0, 0⟩

/-- The 32-bit little-endian word read the driver performs:
`(m[p+3] << 24) | (m[p+2] << 16) | (m[p+1] << 8) | (m[p+0] << 0)`. -/
def psram_read_word (m : Nat → Nat) (p : Nat) : Nat :=
  (m (p + 3) <<< 24) ||| (m (p + 2) <<< 16) ||| (m (p + 1) <<< 8) ||| m p

/-- The four byte stores the driver performs on a write:
`psram_data[p+k] = (uint8_t)(write_data >> 8k)`; the `uint8_t` cast
keeps the low byte. -/
def psram_write_word (m : Nat → Nat) (p w : Nat) : Nat → Nat :=
  Function.update
    (Function.update
      (Function.update
        (Function.update m p ((w >>> 0) % 256))
        (p + 1) ((w >>> 8) % 256))
      (p + 2) ((w >>> 16) % 256))
    (p + 3) ((w >>> 24) % 256)

/-- `PSRAMDriver::post_edge`: on a step where the sync clock is high, a
read (if requested) presents the composed word first, then a write (if
requested) stores its bytes; the idle counters always update. -/
def psram_post_edge (inp : PSRAMIn) (st : PSRAMState) : PSRAMState :=
  let st :=
    if inp.clk_sync = true then
      let st := if inp.read_ready = true then
          { st with read_data_view := psram_read_word st.mem inp.address_ptr } else st
      let st := if inp.write_ready = true then
          { st with mem := psram_write_word st.mem inp.address_ptr inp.write_data } else st
      st
    else st
  if inp.idle = 1 then { st with idle_hi := st.idle_hi + 1 }
  else { st with idle_lo := st.idle_lo + 1 }

/-- A sequence of PSRAM edge calls. -/
def psram_run (inps : List PSRAMIn) (st : PSRAMState) : PSRAMState :=
  inps.foldl (fun s i => psram_post_edge i s) st

/-! ## Video capture model (DVIDriver)

Translated from `gateware/src/tb_cpp/dvi.h`, parametrised by the
compile-time constants `DVI_H_ACTIVE` and `DVI_V_ACTIVE`.  The image
store is the flat byte buffer `image_data` (indexed `y*H*3 + x*3 + c`),
modelled as a total function so that the out-of-bounds stores the C++
performs at `y = DVI_V_ACTIVE` have a defined meaning in the model.
`write_log` is a ghost field recording the cursor position of every
pixel store, in order; `bmp_log` is a ghost field recording the frame
numbers passed to `stbi_write_bmp`. -/

/-- DVI capture driver state. -/
structure DVIState where
  image_data : Nat → Nat
  frames : Nat
  x : Nat
  y : Nat
  write_log : List (Nat × Nat)
  bmp_log : List Nat

/-- Signals the DVI driver reads from the DUT on one edge call. -/
structure DVIIn where
  clk_dvi : Bool
  dvi_vsync : Bool
  dvi_de : Bool
  dvi_r : Nat
  dvi_g : Nat
  dvi_b : Nat

/-- State after the constructor (buffer zeroed by `memset`). -/
def DVIState.start : DVIState := ⟨fun _ => 0, 0, 0, 0, [], []⟩

/-- `DVIDriver::post_edge` for active constants `H = DVI_H_ACTIVE`,
`V = DVI_V_ACTIVE`: on a step where the DVI clock is high, a vsync
assertion zeroes the cursor; a data-enable assertion advances the
cursor (pre-increment of `x`, wrap into `y`), emits a bitmap whenever
`y` has reached `V`, and then stores the three colour bytes at the
cursor position. -/
def dvi_post_edge (H V : Nat) (inp : DVIIn) (st : DVIState) : DVIState :=
  if inp.clk_dvi = true then
    let st := if inp.dvi_vsync = true then { st with x := 0, y := 0 } else st
    if inp.dvi_de = true then
      let st := { st with x := st.x + 1 }
      let st := if H ≤ st.x then { st with x := 0, y := st.y + 1 } else st
      let st := if V ≤ st.y then
          { st with bmp_log := st.bmp_log ++ [st.frames], frames := st.frames + 1 }
        else st
      let base := st.y * H * 3 + st.x * 3
      let img := Function.update
        (Function.update (Function.update st.image_data base inp.dvi_r)
          (base + 1) inp.dvi_g) (base + 2) inp.dvi_b
      { st with image_data := img, write_log := st.write_log ++ [(st.x, st.y)] }
    else st
  else st

/-- A sequence of DVI edge calls. -/
def dvi_run (H V : Nat) (inps : List DVIIn) (st : DVIState) : DVIState :=
  inps.foldl (fun s i => dvi_post_edge H V i s) st

/-! ## Domain scheduler

Translated from the main loops of `gateware/src/tb_cpp/sim_soc.cpp`
and `gateware/src/top/vectorscope_no_soc/sim/sim.cpp`: simulated time
advances by 1000 units per step after two 1-unit reset increments; at
each step the loop computes `timestamp_ns = time / 1000` and, for each
clock domain independently, toggles the domain's clock level when the
timestamp is an exact multiple of that domain's half period. -/

/-- Scheduler state: the simulated time and the three clock levels. -/
structure SchedState where
  time : Nat
  clk_dvi : Bool
  clk_sync : Bool
  clk_audio : Bool

/-- State on entering the main loop: the two reset evaluations have
advanced the context time to 2; all clocks start low. -/
def SchedState.start : SchedState := ⟨2, false, false, false⟩

/-- One iteration of the scheduler loop, for half periods `hDvi`,
`hSync`, `hAudio` (each `ns_in_X_cycle / 2`). -/
def sched_step (hDvi hSync hAudio : Nat) (st : SchedState) : SchedState :=
  let ts := st.time / 1000
  let st := if ts % hDvi = 0 then { st with clk_dvi := !st.clk_dvi } else st
  let st := if ts % hSync = 0 then { st with clk_sync := !st.clk_sync } else st
  let st := if ts % hAudio = 0 then { st with clk_audio := !st.clk_audio } else st
  { st with time := st.time + 1000 }

/-- The scheduler state after `n` loop iterations. -/
def sched_iter (hDvi hSync hAudio : Nat) (n : Nat) : SchedState :=
  (sched_step hDvi hSync hAudio)^[n] SchedState.start

/-! ## Step characterisation lemmas for the audio driver -/

theorem sct_scalar (ch : Nat) (st : I2SState) :
    (start_channel_transmission ch st).current_channel = st.current_channel ∧
    (start_channel_transmission ch st).bit_counter = st.bit_counter ∧
    (start_channel_transmission ch st).last_lrck = st.last_lrck ∧
    (start_channel_transmission ch st).last_bick = st.last_bick ∧
    (start_channel_transmission ch st).setup_log = st.setup_log ++ [ch] := by
  unfold start_channel_transmission
  cases h : (st.channels ch).inject_queue <;> simp [h]

theorem sct_captured (ch c : Nat) (st : I2SState) :
    ((start_channel_transmission ch st).channels c).captured = (st.channels c).captured := by
  unfold start_channel_transmission
  by_cases hc : c = ch
  · subst hc
    rcases h : (st.channels c).inject_queue with _ | ⟨v, rest⟩ <;> simp [h]
  · rcases h : (st.channels ch).inject_queue with _ | ⟨v, rest⟩ <;>
      simp [h, Function.update_noteq hc]

theorem sct_rx_acc (ch c : Nat) (st : I2SState) :
    ((start_channel_transmission ch st).channels c).current_rx_sample
      = (st.channels c).current_rx_sample := by
  unfold start_channel_transmission
  by_cases hc : c = ch
  · subst hc
    rcases h : (st.channels c).inject_queue with _ | ⟨v, rest⟩ <;> simp [h]
  · rcases h : (st.channels ch).inject_queue with _ | ⟨v, rest⟩ <;>
      simp [h, Function.update_noteq hc]

theorem post_edge_rise (cfg : I2SConfig) (lv : Bool) (b : Nat) (st : I2SState)
    (hl : st.last_lrck = lv) (hb : st.last_bick = false) :
    post_edge cfg ⟨lv, true, b⟩ st =
      { handle_rx_bit ⟨lv, true, b⟩ st with last_lrck := lv, last_bick := true } := by
  simp [post_edge, hl, hb]

theorem post_edge_fall (cfg : I2SConfig) (lv : Bool) (sd : Nat) (st : I2SState)
    (hl : st.last_lrck = lv) (hb : st.last_bick = true) :
    post_edge cfg ⟨lv, false, sd⟩ st =
      { handle_tx_bit (bick_fall_progress cfg st) with last_lrck := lv, last_bick := false } := by
  simp [post_edge, hl, hb]

theorem post_edge_sync (cfg : I2SConfig) (b : Bool) (sd : Nat) (st : I2SState)
    (hl : st.last_lrck = false) (hb : st.last_bick = b) :
    post_edge cfg ⟨true, b, sd⟩ st =
      { frame_start cfg st with last_lrck := true, last_bick := b } := by
  cases b <;> simp [post_edge, hl, hb]

theorem handle_rx_cc (inp : I2SIn) (st : I2SState) :
    (handle_rx_bit inp st).current_channel = st.current_channel := by
  unfold handle_rx_bit
  by_cases h1 : st.bit_counter < 16 <;> by_cases h2 : st.bit_counter = 15 <;> simp [h1, h2]

theorem handle_rx_bc (inp : I2SIn) (st : I2SState) :
    (handle_rx_bit inp st).bit_counter = st.bit_counter := by
  unfold handle_rx_bit
  by_cases h1 : st.bit_counter < 16 <;> by_cases h2 : st.bit_counter = 15 <;> simp [h1, h2]

theorem handle_rx_ll (inp : I2SIn) (st : I2SState) :
    (handle_rx_bit inp st).last_lrck = st.last_lrck := by
  unfold handle_rx_bit
  by_cases h1 : st.bit_counter < 16 <;> by_cases h2 : st.bit_counter = 15 <;> simp [h1, h2]

theorem handle_rx_lb (inp : I2SIn) (st : I2SState) :
    (handle_rx_bit inp st).last_bick = st.last_bick := by
  unfold handle_rx_bit
  by_cases h1 : st.bit_counter < 16 <;> by_cases h2 : st.bit_counter = 15 <;> simp [h1, h2]

theorem handle_rx_log (inp : I2SIn) (st : I2SState) :
    (handle_rx_bit inp st).setup_log = st.setup_log := by
  unfold handle_rx_bit
  by_cases h1 : st.bit_counter < 16 <;> by_cases h2 : st.bit_counter = 15 <;> simp [h1, h2]

theorem handle_rx_bit_mid (inp : I2SIn) (st : I2SState)
    (h1 : st.bit_counter < 16) (h2 : st.bit_counter ≠ 15) :
    handle_rx_bit inp st
      = { st with channels := (Function.update st.channels st.current_channel
            (rx_shift_in (st.channels st.current_channel) inp.sdin)) } := by
  unfold handle_rx_bit
  rw [if_pos h1, if_neg h2]

theorem handle_rx_bit_last (inp : I2SIn) (st : I2SState) (h : st.bit_counter = 15) :
    handle_rx_bit inp st
      = { st with channels := (Function.update st.channels st.current_channel
            (rx_finalize (st.channels st.current_channel) inp.sdin)) } := by
  unfold handle_rx_bit
  rw [if_pos (by omega), if_pos h]

theorem handle_tx_channels (st : I2SState) : (handle_tx_bit st).channels = st.channels := by
  unfold handle_tx_bit; split <;> rfl

theorem handle_tx_cc (st : I2SState) :
    (handle_tx_bit st).current_channel = st.current_channel := by
  unfold handle_tx_bit; split <;> rfl

theorem handle_tx_bc (st : I2SState) : (handle_tx_bit st).bit_counter = st.bit_counter := by
  unfold handle_tx_bit; split <;> rfl

theorem handle_tx_ll (st : I2SState) : (handle_tx_bit st).last_lrck = st.last_lrck := by
  unfold handle_tx_bit; split <;> rfl

theorem handle_tx_lb (st : I2SState) : (handle_tx_bit st).last_bick = st.last_bick := by
  unfold handle_tx_bit; split <;> rfl

theorem handle_tx_log (st : I2SState) : (handle_tx_bit st).setup_log = st.setup_log := by
  unfold handle_tx_bit; split <;> rfl

theorem rx_shift_in_acc (cs : ChannelState) (b : Nat)
    (hacc : cs.current_rx_sample < 2147483648) (hb : b ≤ 1) :
    (rx_shift_in cs b).current_rx_sample = 2 * cs.current_rx_sample + b := by
  unfold rx_shift_in
  dsimp only
  rw [Nat.shiftLeft_eq, Nat.mod_eq_of_lt (by omega), Nat.and_one_is_mod,
      Nat.mod_eq_of_lt (show b < 2 by omega)]
  have h2 : cs.current_rx_sample * 2 ^ 1 = 2 ^ 1 * cs.current_rx_sample := by ring
  rw [h2, ← Nat.mul_add_lt_is_or (show b < 2 ^ 1 by omega) cs.current_rx_sample]

theorem rx_shift_in_captured (cs : ChannelState) (b : Nat) :
    (rx_shift_in cs b).captured = cs.captured := rfl

theorem bick_fall_progress_nowrap (cfg : I2SConfig) (st : I2SState)
    (h : st.bit_counter + 1 < 32) :
    bick_fall_progress cfg st = { st with bit_counter := st.bit_counter + 1 } := by
  unfold bick_fall_progress
  dsimp only
  rw [if_neg (by omega)]

theorem bick_fall_progress_wrap (cfg : I2SConfig) (st : I2SState)
    (h : 32 ≤ st.bit_counter + 1) :
    bick_fall_progress cfg st =
      start_channel_transmission (slot_advance cfg.count_up st.current_channel)
        { st with bit_counter := 0,
                  current_channel := slot_advance cfg.count_up st.current_channel } := by
  unfold bick_fall_progress
  dsimp only
  rw [if_pos (by omega)]

theorem post_edge_rise_scalar (cfg : I2SConfig) (lv : Bool) (b : Nat) (st : I2SState)
    (hl : st.last_lrck = lv) (hb : st.last_bick = false) :
    (post_edge cfg ⟨lv, true, b⟩ st).current_channel = st.current_channel ∧
    (post_edge cfg ⟨lv, true, b⟩ st).bit_counter = st.bit_counter ∧
    (post_edge cfg ⟨lv, true, b⟩ st).last_lrck = lv ∧
    (post_edge cfg ⟨lv, true, b⟩ st).last_bick = true ∧
    (post_edge cfg ⟨lv, true, b⟩ st).setup_log = st.setup_log := by
  rw [post_edge_rise cfg lv b st hl hb]
  exact ⟨handle_rx_cc _ _, handle_rx_bc _ _, rfl, rfl, handle_rx_log _ _⟩

theorem post_edge_rise_fields (cfg : I2SConfig) (lv : Bool) (b : Nat) (st : I2SState)
    (hl : st.last_lrck = lv) (hb : st.last_bick = false)
    (h1 : st.bit_counter < 16) (h2 : st.bit_counter ≠ 15) :
    (post_edge cfg ⟨lv, true, b⟩ st).channels
      = Function.update st.channels st.current_channel
          (rx_shift_in (st.channels st.current_channel) b) := by
  rw [post_edge_rise cfg lv b st hl hb, handle_rx_bit_mid ⟨lv, true, b⟩ st h1 h2]

theorem post_edge_fall_fields (cfg : I2SConfig) (lv : Bool) (sd : Nat) (st : I2SState)
    (hl : st.last_lrck = lv) (hb : st.last_bick = true) (hcnt : st.bit_counter + 1 < 32) :
    (post_edge cfg ⟨lv, false, sd⟩ st).channels = st.channels ∧
    (post_edge cfg ⟨lv, false, sd⟩ st).current_channel = st.current_channel ∧
    (post_edge cfg ⟨lv, false, sd⟩ st).bit_counter = st.bit_counter + 1 ∧
    (post_edge cfg ⟨lv, false, sd⟩ st).last_lrck = lv ∧
    (post_edge cfg ⟨lv, false, sd⟩ st).last_bick = false ∧
    (post_edge cfg ⟨lv, false, sd⟩ st).setup_log = st.setup_log := by
  rw [post_edge_fall cfg lv sd st hl hb, bick_fall_progress_nowrap cfg st hcnt]
  exact ⟨handle_tx_channels _, handle_tx_cc _, handle_tx_bc _, rfl, rfl, handle_tx_log _⟩

theorem bit_period_mid (cfg : I2SConfig) (lv : Bool) (b : Nat) (st : I2SState)
    (hl : st.last_lrck = lv) (hb : st.last_bick = false) (hcnt : st.bit_counter ≤ 14) :
    (bit_period cfg lv b st).channels
      = Function.update st.channels st.current_channel
          (rx_shift_in (st.channels st.current_channel) b) ∧
    (bit_period cfg lv b st).current_channel = st.current_channel ∧
    (bit_period cfg lv b st).bit_counter = st.bit_counter + 1 ∧
    (bit_period cfg lv b st).last_lrck = lv ∧
    (bit_period cfg lv b st).last_bick = false ∧
    (bit_period cfg lv b st).setup_log = st.setup_log := by
  obtain ⟨r1, r2, r3, r4, r5⟩ := post_edge_rise_scalar cfg lv b st hl hb
  have rch := post_edge_rise_fields cfg lv b st hl hb (by omega) (by omega)
  obtain ⟨f1, f2, f3, f4, f5, f6⟩ :=
    post_edge_fall_fields cfg lv 0 (post_edge cfg ⟨lv, true, b⟩ st) r3 r4 (by rw [r2]; omega)
  unfold bit_period
  refine ⟨?_, ?_, ?_, f4, f5, ?_⟩
  · rw [f1, rch]
  · rw [f2, r1]
  · rw [f3, r2]
  · rw [f6, r5]

theorem post_edge_fall_proj (cfg : I2SConfig) (lv : Bool) (sd : Nat) (st : I2SState)
    (hl : st.last_lrck = lv) (hb : st.last_bick = true) :
    ((post_edge cfg ⟨lv, false, sd⟩ st).current_channel,
      (post_edge cfg ⟨lv, false, sd⟩ st).bit_counter)
        = proj_step cfg.count_up (st.current_channel, st.bit_counter) ∧
    (post_edge cfg ⟨lv, false, sd⟩ st).setup_log
        = st.setup_log ++ proj_setups cfg.count_up (st.current_channel, st.bit_counter) ∧
    (post_edge cfg ⟨lv, false, sd⟩ st).last_lrck = lv ∧
    (post_edge cfg ⟨lv, false, sd⟩ st).last_bick = false := by
  rw [post_edge_fall cfg lv sd st hl hb]
  unfold proj_step proj_setups
  by_cases h : 32 ≤ st.bit_counter + 1
  · rw [bick_fall_progress_wrap cfg st h]
    obtain ⟨s1, s2, s3, s4, s5⟩ :=
      sct_scalar (slot_advance cfg.count_up st.current_channel)
        { st with bit_counter := 0,
                  current_channel := slot_advance cfg.count_up st.current_channel }
    rw [if_pos h, if_pos h]
    refine ⟨?_, ?_, rfl, rfl⟩
    · rw [Prod.mk.injEq, handle_tx_cc, handle_tx_bc, s1, s2]
      exact ⟨rfl, rfl⟩
    · rw [handle_tx_log, s5]
  · rw [bick_fall_progress_nowrap cfg st (by omega)]
    rw [if_neg h, if_neg h]
    refine ⟨?_, ?_, rfl, rfl⟩
    · rw [Prod.mk.injEq, handle_tx_cc, handle_tx_bc]
      exact ⟨rfl, rfl⟩
    · rw [handle_tx_log, List.append_nil]

theorem bit_period_proj (cfg : I2SConfig) (lv : Bool) (b : Nat) (st : I2SState)
    (hl : st.last_lrck = lv) (hb : st.last_bick = false) :
    ((bit_period cfg lv b st).current_channel, (bit_period cfg lv b st).bit_counter)
        = proj_step cfg.count_up (st.current_channel, st.bit_counter) ∧
    (bit_period cfg lv b st).setup_log
        = st.setup_log ++ proj_setups cfg.count_up (st.current_channel, st.bit_counter) ∧
    (bit_period cfg lv b st).last_lrck = lv ∧
    (bit_period cfg lv b st).last_bick = false := by
  obtain ⟨r1, r2, r3, r4, r5⟩ := post_edge_rise_scalar cfg lv b st hl hb
  obtain ⟨p1, p2, p3, p4⟩ :=
    post_edge_fall_proj cfg lv 0 (post_edge cfg ⟨lv, true, b⟩ st) r3 r4
  unfold bit_period
  refine ⟨?_, ?_, p3, p4⟩
  · rw [p1, r1, r2]
  · rw [p2, r1, r2, r5]

theorem run_periods_proj (cfg : I2SConfig) (lv : Bool) :
    ∀ (bits : List Nat) (st : I2SState), st.last_lrck = lv → st.last_bick = false →
    ((run_periods cfg lv bits st).current_channel,
      (run_periods cfg lv bits st).bit_counter)
        = proj_iter cfg.count_up bits.length (st.current_channel, st.bit_counter) ∧
    (run_periods cfg lv bits st).setup_log
        = st.setup_log ++ proj_trace cfg.count_up bits.length (st.current_channel, st.bit_counter) ∧
    (run_periods cfg lv bits st).last_lrck = lv ∧
    (run_periods cfg lv bits st).last_bick = false := by
  intro bits
  induction bits with
  | nil =>
    intro st hl hb
    exact ⟨rfl, (List.append_nil _).symm, hl, hb⟩
  | cons b bs ih =>
    intro st hl hb
    obtain ⟨p1, p2, p3, p4⟩ := bit_period_proj cfg lv b st hl hb
    obtain ⟨q1, q2, q3, q4⟩ := ih (bit_period cfg lv b st) p3 p4
    refine ⟨?_, ?_, q3, q4⟩
    · show ((run_periods cfg lv bs (bit_period cfg lv b st)).current_channel,
            (run_periods cfg lv bs (bit_period cfg lv b st)).bit_counter)
        = proj_iter cfg.count_up (b :: bs).length (st.current_channel, st.bit_counter)
      rw [q1, p1, List.length_cons, proj_iter]
    · show (run_periods cfg lv bs (bit_period cfg lv b st)).setup_log
        = st.setup_log ++ proj_trace cfg.count_up (b :: bs).length (st.current_channel, st.bit_counter)
      rw [q2, p2, p1, List.length_cons, proj_trace, List.append_assoc]

/-- Shared arithmetic form of the C++ accumulator update
`(a << 1) | (b & 1)` on `uint32_t` when no wrap occurs. -/
theorem shift_or_eq (a b : Nat) (ha : a < 2147483648) (hb : b ≤ 1) :
    ((a <<< 1) % 4294967296) ||| (b &&& 1) = 2 * a + b := by
  rw [Nat.shiftLeft_eq, Nat.mod_eq_of_lt (by omega), Nat.and_one_is_mod,
      Nat.mod_eq_of_lt (show b < 2 by omega)]
  have h2 : a * 2 ^ 1 = 2 ^ 1 * a := by ring
  rw [h2, ← Nat.mul_add_lt_is_or (show b < 2 ^ 1 by omega) a]

theorem rx_finalize_acc (cs : ChannelState) (b : Nat) :
    (rx_finalize cs b).current_rx_sample = 0 := rfl

theorem rx_finalize_captured (cs : ChannelState) (b : Nat)
    (hacc : cs.current_rx_sample < 32768) (hb : b ≤ 1) :
    (rx_finalize cs b).captured
      = cs.captured
        ++ [toInt16 (2 * rx_correct (toInt16 ((2 * cs.current_rx_sample + b : Nat) : Int)))] := by
  unfold rx_finalize
  dsimp only
  rw [shift_or_eq _ _ (by omega) hb, Nat.mod_eq_of_lt (by omega)]

/-- Assembled values stay below the power of two given by the number of
bits consumed. -/
theorem assemble_from_lt :
    ∀ (bits : List Nat) (a k : Nat), (∀ b ∈ bits, b ≤ 1) → a < 2 ^ k →
      assemble_from a bits < 2 ^ (k + bits.length) := by
  intro bits
  induction bits with
  | nil => intro a k _ ha; simpa using ha
  | cons b bs ih =>
    intro a k hb ha
    have hb1 : b ≤ 1 := hb b (List.mem_cons_self b bs)
    have step : assemble_from a (b :: bs) = assemble_from (2 * a + b) bs := rfl
    have h2 : 2 * a + b < 2 ^ (k + 1) := by
      have : (2:Nat) ^ (k + 1) = 2 * 2 ^ k := by rw [pow_succ]; ring
      omega
    have := ih (2 * a + b) (k + 1) (fun x hx => hb x (List.mem_cons_of_mem b hx)) h2
    rw [step]
    have he : k + 1 + bs.length = k + (b :: bs).length := by simp; omega
    rw [← he]
    exact this

theorem rx_phase (cfg : I2SConfig) (lv : Bool) :
    ∀ (bits : List Nat) (st : I2SState),
      st.last_lrck = lv → st.last_bick = false →
      st.bit_counter + bits.length ≤ 15 →
      (∀ b ∈ bits, b ≤ 1) →
      (st.channels st.current_channel).current_rx_sample < 2 ^ st.bit_counter →
      (run_periods cfg lv bits st).current_channel = st.current_channel ∧
      (run_periods cfg lv bits st).bit_counter = st.bit_counter + bits.length ∧
      (run_periods cfg lv bits st).last_lrck = lv ∧
      (run_periods cfg lv bits st).last_bick = false ∧
      ((run_periods cfg lv bits st).channels st.current_channel).current_rx_sample
        = assemble_from (st.channels st.current_channel).current_rx_sample bits ∧
      ((run_periods cfg lv bits st).channels st.current_channel).captured
        = (st.channels st.current_channel).captured := by
  intro bits
  induction bits with
  | nil =>
    intro st h1 h2 h3 h4 h5
    exact ⟨rfl, by simp [run_periods], h1, h2, rfl, rfl⟩
  | cons b bs ih =>
    intro st h1 h2 h3 h4 h5
    have hbc14 : st.bit_counter ≤ 14 := by simp [List.length_cons] at h3; omega
    obtain ⟨m1, m2, m3, m4, m5, m6⟩ := bit_period_mid cfg lv b st h1 h2 hbc14
    have hpow : (2:Nat) ^ st.bit_counter ≤ 2 ^ 14 :=
      Nat.pow_le_pow_right (by norm_num) hbc14
    have haccb : (st.channels st.current_channel).current_rx_sample < 2147483648 := by
      have : (2:Nat) ^ 14 = 16384 := by norm_num
      omega
    have hb1 : b ≤ 1 := h4 b (List.mem_cons_self b bs)
    have hcs : (bit_period cfg lv b st).channels st.current_channel
        = rx_shift_in (st.channels st.current_channel) b := by
      rw [m1, Function.update_same]
    have hacc2 : ((bit_period cfg lv b st).channels st.current_channel).current_rx_sample
        = 2 * (st.channels st.current_channel).current_rx_sample + b := by
      rw [hcs, rx_shift_in_acc _ _ haccb hb1]
    have hpow2 : (2:Nat) ^ (st.bit_counter + 1) = 2 * 2 ^ st.bit_counter := by
      rw [pow_succ]; ring
    obtain ⟨i1, i2, i3, i4, i5, i6⟩ := ih (bit_period cfg lv b st) m4 m5
      (by rw [m3]; simp [List.length_cons] at h3 ⊢; omega)
      (fun x hx => h4 x (List.mem_cons_of_mem b hx))
      (by rw [m2, hacc2, m3, hpow2]; omega)
    rw [m2] at i1 i5 i6
    refine ⟨?_, ?_, i3, i4, ?_, ?_⟩
    · show (run_periods cfg lv bs (bit_period cfg lv b st)).current_channel
        = st.current_channel
      rw [i1]
    · show (run_periods cfg lv bs (bit_period cfg lv b st)).bit_counter
        = st.bit_counter + (b :: bs).length
      rw [i2, m3, List.length_cons]
      ring
    · show ((run_periods cfg lv bs (bit_period cfg lv b st)).channels
          st.current_channel).current_rx_sample
        = assemble_from (st.channels st.current_channel).current_rx_sample (b :: bs)
      rw [i5, hacc2]
      rfl
    · show ((run_periods cfg lv bs (bit_period cfg lv b st)).channels
          st.current_channel).captured
        = (st.channels st.current_channel).captured
      rw [i6, hcs, rx_shift_in_captured]

/-- Bridge between the C++ arithmetic-shift-and-mask expression and
bit `k` of the 32-bit sign extension, for `int16_t` sample values. -/
theorem fdiv_bit_eq_enc32 (v : Int) (k : Nat) (hk : k ≤ 15)
    (hlo : -32768 ≤ v) (hhi : v < 32768) :
    ((v.fdiv (2 ^ (16 - k))) % 2).toNat = encBit (enc32 v) (16 - k) := by
  unfold encBit enc32
  rw [Int.fdiv_eq_ediv _ (by positivity)]
  interval_cases k <;> omega

/-- C6: on a frame-sync rising edge (the bit-clock line unchanged in
the same call), any prior driver state is reset: the active slot
becomes the configured start slot, the bit counter becomes zero, and
transmission setup runs for that slot, dequeuing the oldest pending
sample and marking the slot transmitting when the queue is non-empty,
and marking it not transmitting when the queue is empty. -/
theorem c6_frame_sync_reset (cfg : I2SConfig) (st : I2SState) (b : Bool) (sd : Nat)
    (hl : st.last_lrck = false) (hbk : st.last_bick = b) :
    (post_edge cfg ⟨true, b, sd⟩ st).current_channel = cfg.start_slot ∧
    (post_edge cfg ⟨true, b, sd⟩ st).bit_counter = 0 ∧
    ((st.channels cfg.start_slot).inject_queue = [] →
      ((post_edge cfg ⟨true, b, sd⟩ st).channels cfg.start_slot).tx_active = false) ∧
    (∀ v rest, (st.channels cfg.start_slot).inject_queue = v :: rest →
      ((post_edge cfg ⟨true, b, sd⟩ st).channels cfg.start_slot).tx_active = true ∧
      ((post_edge cfg ⟨true, b, sd⟩ st).channels cfg.start_slot).current_tx_sample = v ∧
      ((post_edge cfg ⟨true, b, sd⟩ st).channels cfg.start_slot).inject_queue = rest) := by
  rw [post_edge_sync cfg b sd st hl hbk]
  obtain ⟨s1, s2, s3, s4, s5⟩ :=
    sct_scalar cfg.start_slot { st with current_channel := cfg.start_slot, bit_counter := 0 }
  refine ⟨?_, ?_, ?_, ?_⟩
  · show (frame_start cfg st).current_channel = cfg.start_slot
    unfold frame_start
    rw [s1]
  · show (frame_start cfg st).bit_counter = 0
    unfold frame_start
    rw [s2]
  · intro hq
    show ((frame_start cfg st).channels cfg.start_slot).tx_active = false
    unfold frame_start start_channel_transmission
    simp [hq]
  · intro v rest hq
    refine ⟨?_, ?_, ?_⟩ <;>
    · show _
      unfold frame_start start_channel_transmission
      simp [hq]

/-- C1 (amended): on a bit-clock falling edge with no frame-sync
change, the driven serial bit equals bit `16 - k` of the 32-bit sign
extension of the active sample when the post-edge bit counter `k` is
below 16 and the slot is transmitting (so counter 0 re-emits the sign
bit and the sample's least-significant bit is never driven), and
equals zero otherwise (empty-queue slots and counters 16..31). -/
theorem c1_tx_bits_amended (cfg : I2SConfig) (lv : Bool) (sd : Nat) (st st2 : I2SState)
    (hst : st2 = post_edge cfg ⟨lv, false, sd⟩ st)
    (hl : st.last_lrck = lv) (hb : st.last_bick = true)
    (hlo : -32768 ≤ (st2.channels st2.current_channel).current_tx_sample)
    (hhi : (st2.channels st2.current_channel).current_tx_sample < 32768) :
    st2.sdout =
      if st2.bit_counter < 16 ∧ (st2.channels st2.current_channel).tx_active = true
      then encBit (enc32 (st2.channels st2.current_channel).current_tx_sample)
             (16 - st2.bit_counter)
      else 0 := by
  subst hst
  rw [post_edge_fall cfg lv sd st hl hb] at hlo hhi ⊢
  show (handle_tx_bit (bick_fall_progress cfg st)).sdout = _
  rw [handle_tx_channels, handle_tx_cc] at hlo hhi
  rw [handle_tx_channels, handle_tx_cc, handle_tx_bc]
  unfold handle_tx_bit
  by_cases h : (bick_fall_progress cfg st).bit_counter < 16 ∧
      ((bick_fall_progress cfg st).channels
        (bick_fall_progress cfg st).current_channel).tx_active = true
  · rw [if_pos h, if_pos h]
    exact fdiv_bit_eq_enc32 _ _ (by omega) hlo hhi
  · rw [if_neg h, if_neg h]

/-- C1 (counterexample to the claim as stated): a concrete driver
state mid-slot on channel 0, transmitting the previously dequeued
sample 1 with bit counter 14; the next bit-clock falling edge advances
the counter to 15 and the driver emits 0, while the claim's MSB-first
indexing (bit 15-k at counter k) demands bit 0 of the sample, which
is 1. -/
theorem c1_counterexample :
    (post_edge i2sHeaderCfg ⟨false, false, 0⟩ c1WitnessState).sdout = 0 ∧
    (post_edge i2sHeaderCfg ⟨false, false, 0⟩ c1WitnessState).bit_counter = 15 ∧
    (post_edge i2sHeaderCfg ⟨false, false, 0⟩ c1WitnessState).current_channel = 0 ∧
    ((post_edge i2sHeaderCfg ⟨false, false, 0⟩ c1WitnessState).channels 0).tx_active
      = true ∧
    ((post_edge i2sHeaderCfg ⟨false, false, 0⟩
        c1WitnessState).channels 0).current_tx_sample = 1 ∧
    encBit (enc16 1) (15 - 15) = 1 := by
  decide

theorem c1_witness :
    (post_edge i2sHeaderCfg ⟨false, false, 0⟩ c1WitnessState).sdout =
      if (post_edge i2sHeaderCfg ⟨false, false, 0⟩ c1WitnessState).bit_counter < 16 ∧
         ((post_edge i2sHeaderCfg ⟨false, false, 0⟩ c1WitnessState).channels
           (post_edge i2sHeaderCfg ⟨false, false, 0⟩
             c1WitnessState).current_channel).tx_active = true
      then encBit (enc32 ((post_edge i2sHeaderCfg ⟨false, false, 0⟩
             c1WitnessState).channels (post_edge i2sHeaderCfg ⟨false, false, 0⟩
               c1WitnessState).current_channel).current_tx_sample)
             (16 - (post_edge i2sHeaderCfg ⟨false, false, 0⟩ c1WitnessState).bit_counter)
      else 0 :=
  c1_tx_bits_amended i2sHeaderCfg false 0 c1WitnessState _ rfl rfl rfl
    (by decide) (by decide)

/-- Full 16-bit slot capture: starting a slot with a clear accumulator
and bit counter zero, 16 bit-clock periods assemble the incoming bits
MSB-first and append the finalised sample to the active channel. -/
theorem rx_slot_capture (cfg : I2SConfig) (lv : Bool) (st : I2SState) (bits : List Nat)
    (hlen : bits.length = 16) (hbits : ∀ x ∈ bits, x ≤ 1)
    (hl : st.last_lrck = lv) (hb : st.last_bick = false)
    (hc : st.bit_counter = 0)
    (hacc : (st.channels st.current_channel).current_rx_sample = 0) :
    ((run_periods cfg lv bits st).channels st.current_channel).captured
      = (st.channels st.current_channel).captured
        ++ [toInt16 (2 * rx_correct (toInt16 ((assemble_bits bits : Nat) : Int)))] ∧
    ((run_periods cfg lv bits st).channels st.current_channel).current_rx_sample = 0 := by
  have hne : bits ≠ [] := by
    intro h
    rw [h] at hlen
    exact absurd hlen (by norm_num)
  obtain ⟨bs, b, hsplit⟩ : ∃ bs b, bits = bs ++ [b] :=
    ⟨bits.dropLast, bits.getLast hne, (List.dropLast_append_getLast hne).symm⟩
  subst hsplit
  have hlbs : bs.length = 15 := by simp at hlen; omega
  have hb1 : b ≤ 1 := hbits b (by simp)
  have hbs : ∀ x ∈ bs, x ≤ 1 := fun x hx => hbits x (by simp [hx])
  obtain ⟨i1, i2, i3, i4, i5, i6⟩ := rx_phase cfg lv bs st hl hb (by omega) hbs
    (by rw [hacc, hc]; norm_num)
  have hR15 : (run_periods cfg lv bs st).bit_counter = 15 := by rw [i2, hc, hlbs]
  have haccR : ((run_periods cfg lv bs st).channels
      st.current_channel).current_rx_sample = assemble_from 0 bs := by
    rw [i5, hacc]
  have haccLt : assemble_from 0 bs < 32768 := by
    have h := assemble_from_lt bs 0 0 hbs (by norm_num)
    rw [hlbs] at h
    simpa using h
  obtain ⟨r1, r2, r3, r4, r5⟩ :=
    post_edge_rise_scalar cfg lv b (run_periods cfg lv bs st) i3 i4
  have hAch : (post_edge cfg ⟨lv, true, b⟩ (run_periods cfg lv bs st)).channels
      = Function.update (run_periods cfg lv bs st).channels
          (run_periods cfg lv bs st).current_channel
          (rx_finalize ((run_periods cfg lv bs st).channels
            (run_periods cfg lv bs st).current_channel) b) := by
    rw [post_edge_rise cfg lv b _ i3 i4, handle_rx_bit_last ⟨lv, true, b⟩ _ hR15]
  have hrun : run_periods cfg lv (bs ++ [b]) st
      = post_edge cfg ⟨lv, false, 0⟩
          (post_edge cfg ⟨lv, true, b⟩ (run_periods cfg lv bs st)) := by
    unfold run_periods
    rw [List.foldl_append]
    rfl
  obtain ⟨f1, f2, f3, f4, f5, f6⟩ := post_edge_fall_fields cfg lv 0
    (post_edge cfg ⟨lv, true, b⟩ (run_periods cfg lv bs st)) r3 r4 (by rw [r2, hR15]; omega)
  have hasm : assemble_bits (bs ++ [b]) = 2 * assemble_from 0 bs + b := by
    unfold assemble_bits assemble_from
    rw [List.foldl_append]
    rfl
  rw [hrun]
  constructor
  · rw [f1, hAch, i1, Function.update_same,
        rx_finalize_captured _ _ (by rw [haccR]; exact haccLt) hb1, i6, haccR, hasm]
  · rw [f1, hAch, i1, Function.update_same, rx_finalize_acc]

/-- C2 (amended): for every 16-bit sequence shifted in on bit-clock
rising edges from a clear accumulator at bit counter zero, the value
appended on the final bit is the 16-bit truncation of twice the
corrected sample, where the correction subtracts 32769 from
sign-extended values above 16384 (the workaround the claim omits), and
the accumulator is zero afterwards. -/
theorem c2_rx_amended (cfg : I2SConfig) (lv : Bool) (st : I2SState) (bits : List Nat)
    (hlen : bits.length = 16) (hbits : ∀ x ∈ bits, x ≤ 1)
    (hl : st.last_lrck = lv) (hb : st.last_bick = false)
    (hc : st.bit_counter = 0)
    (hacc : (st.channels st.current_channel).current_rx_sample = 0) :
    ((run_periods cfg lv bits st).channels st.current_channel).captured
      = (st.channels st.current_channel).captured
        ++ [toInt16 (2 * rx_correct (toInt16 ((assemble_bits bits : Nat) : Int)))] ∧
    ((run_periods cfg lv bits st).channels st.current_channel).current_rx_sample = 0 :=
  rx_slot_capture cfg lv st bits hlen hbits hl hb hc hacc

theorem c2_witness :
    ((run_periods i2sHeaderCfg false (List.replicate 16 0)
        I2SState.start).channels I2SState.start.current_channel).captured
      = (I2SState.start.channels I2SState.start.current_channel).captured
        ++ [toInt16 (2 * rx_correct (toInt16
            ((assemble_bits (List.replicate 16 0) : Nat) : Int)))] ∧
    ((run_periods i2sHeaderCfg false (List.replicate 16 0)
        I2SState.start).channels I2SState.start.current_channel).current_rx_sample = 0 :=
  c2_rx_amended i2sHeaderCfg false I2SState.start (List.replicate 16 0)
    (by decide) (by decide) rfl rfl rfl rfl

/-- C2 (counterexample to the claim as stated): feeding the 16-bit
pattern of 16385 (0x4001), the code captures -32768, while
sign-extension followed by a left-shift by one with no other
correction gives 32770 (or -32766 after 16-bit truncation). -/
theorem c2_counterexample :
    ((run_periods i2sHeaderCfg false [0, 1, 0, 0, 0, 0, 0, 0, 0, 0, 0, 0, 0, 0, 0, 1]
        I2SState.start).channels 0).captured = [-32768] ∧
    assemble_bits [0, 1, 0, 0, 0, 0, 0, 0, 0, 0, 0, 0, 0, 0, 0, 1] = 16385 ∧
    2 * toInt16 ((16385 : Nat) : Int) = 32770 ∧
    toInt16 (2 * toInt16 ((16385 : Nat) : Int)) = -32766 := by
  refine ⟨?_, by decide, by decide, by decide⟩
  have h := (rx_slot_capture i2sHeaderCfg false I2SState.start
    [0, 1, 0, 0, 0, 0, 0, 0, 0, 0, 0, 0, 0, 0, 0, 1]
    (by decide) (by decide) rfl rfl rfl rfl).1
  rw [show I2SState.start.current_channel = 0 from rfl] at h
  rw [h]
  decide

set_option maxRecDepth 4000 in
/-- C7: from any slot with bit counter zero and no frame-sync edge,
one full audio frame of bit-clock periods (4 slots of 32 falling
edges) returns the active slot to its start value with the counter at
zero; exactly 4 transmission setups run, their slot order is the
deterministic cycle `proj_trace` fixed by the configuration, and that
order is a permutation of all four slots. -/
theorem c7_frame_cycle (cfg : I2SConfig) (lv : Bool) (bits : List Nat) (st : I2SState)
    (s : Nat) (hs : s < 4) (hlen : bits.length = 128)
    (hcc : st.current_channel = s) (hbc : st.bit_counter = 0)
    (hl : st.last_lrck = lv) (hb : st.last_bick = false) :
    (run_periods cfg lv bits st).current_channel = s ∧
    (run_periods cfg lv bits st).bit_counter = 0 ∧
    (run_periods cfg lv bits st).setup_log
      = st.setup_log ++ proj_trace cfg.count_up 128 (s, 0) ∧
    (proj_trace cfg.count_up 128 (s, 0)).length = 4 ∧
    (proj_trace cfg.count_up 128 (s, 0)).Perm [0, 1, 2, 3] := by
  obtain ⟨q1, q2, q3, q4⟩ := run_periods_proj cfg lv bits st hl hb
  rw [hlen, hcc, hbc] at q1 q2
  have hiter : proj_iter cfg.count_up 128 (s, 0) = (s, 0) := by
    cases hcu : cfg.count_up <;> interval_cases s <;> decide
  rw [hiter, Prod.mk.injEq] at q1
  refine ⟨q1.1, q1.2, q2, ?_, ?_⟩
  · cases hcu : cfg.count_up <;> interval_cases s <;> decide
  · cases hcu : cfg.count_up <;> interval_cases s <;> decide

theorem c7_witness :
    (run_periods i2sHeaderCfg false (List.replicate 128 0)
      I2SState.start).current_channel = 0 ∧
    (run_periods i2sHeaderCfg false (List.replicate 128 0)
      I2SState.start).bit_counter = 0 ∧
    (run_periods i2sHeaderCfg false (List.replicate 128 0) I2SState.start).setup_log
      = I2SState.start.setup_log ++ proj_trace i2sHeaderCfg.count_up 128 (0, 0) ∧
    (proj_trace i2sHeaderCfg.count_up 128 (0, 0)).length = 4 ∧
    (proj_trace i2sHeaderCfg.count_up 128 (0, 0)).Perm [0, 1, 2, 3] :=
  c7_frame_cycle i2sHeaderCfg false (List.replicate 128 0) I2SState.start 0
    (by norm_num) (by simp) rfl rfl rfl rfl

theorem c6_witness :
    (post_edge i2sHeaderCfg ⟨true, false, 0⟩
      (inject_sample 2 5 I2SState.start)).current_channel = i2sHeaderCfg.start_slot ∧
    (post_edge i2sHeaderCfg ⟨true, false, 0⟩
      (inject_sample 2 5 I2SState.start)).bit_counter = 0 ∧
    ((post_edge i2sHeaderCfg ⟨true, false, 0⟩
      (inject_sample 2 5 I2SState.start)).channels i2sHeaderCfg.start_slot).tx_active
        = true ∧
    ((post_edge i2sHeaderCfg ⟨true, false, 0⟩
      (inject_sample 2 5 I2SState.start)).channels
        i2sHeaderCfg.start_slot).current_tx_sample = 5 ∧
    ((post_edge i2sHeaderCfg ⟨true, false, 0⟩
      (inject_sample 2 5 I2SState.start)).channels
        i2sHeaderCfg.start_slot).inject_queue = [] := by
  obtain ⟨h1, h2, h3, h4⟩ := c6_frame_sync_reset i2sHeaderCfg
    (inject_sample 2 5 I2SState.start) false 0 (by decide) (by decide)
  obtain ⟨g1, g2, g3⟩ := h4 5 [] (by decide)
  exact ⟨h1, h2, g1, g2, g3⟩

/-- C9: out-of-range channel indices (4 and above) make `inject_sample`
a silent no-op on the whole driver state and `get_captured_samples`
return the empty sequence, while in-range indices append to that
channel's pending queue (touching nothing else) and read back that
channel's ordered captured list. -/
theorem c9_channel_bounds (st : I2SState) (ch : Nat) (v : Int) :
    (4 ≤ ch →
      inject_sample ch v st = st ∧ get_captured_samples st ch = []) ∧
    (ch < 4 →
      ((inject_sample ch v st).channels ch).inject_queue
        = (st.channels ch).inject_queue ++ [v] ∧
      ((inject_sample ch v st).channels ch).captured = (st.channels ch).captured ∧
      (∀ c, c ≠ ch → (inject_sample ch v st).channels c = st.channels c) ∧
      (inject_sample ch v st).current_channel = st.current_channel ∧
      (inject_sample ch v st).bit_counter = st.bit_counter ∧
      get_captured_samples st ch = (st.channels ch).captured) := by
  constructor
  · intro h
    have h2 : ¬ ch < 4 := by omega
    unfold inject_sample get_captured_samples
    rw [if_neg h2, if_neg h2]
    exact ⟨rfl, rfl⟩
  · intro h
    unfold inject_sample get_captured_samples
    rw [if_pos h, if_pos h]
    refine ⟨?_, ?_, ?_, rfl, rfl, rfl⟩
    · simp
    · simp
    · intro c hc
      show Function.update st.channels ch _ c = st.channels c
      rw [Function.update_noteq hc]

theorem c9_witness :
    (inject_sample 5 7 I2SState.start = I2SState.start ∧
      get_captured_samples I2SState.start 5 = []) ∧
    ((inject_sample 2 7 I2SState.start).channels 2).inject_queue
      = (I2SState.start.channels 2).inject_queue ++ [7] ∧
    get_captured_samples I2SState.start 2 = (I2SState.start.channels 2).captured := by
  have ha := (c9_channel_bounds I2SState.start 5 7).1 (by norm_num)
  have hb := (c9_channel_bounds I2SState.start 2 7).2 (by norm_num)
  exact ⟨ha, hb.1, hb.2.2.2.2.2⟩

theorem sched_time (hDvi hSync hAudio n : Nat) :
    (sched_iter hDvi hSync hAudio n).time = 2 + 1000 * n := by
  induction n with
  | zero => rfl
  | succ k ih =>
    have hstep : sched_iter hDvi hSync hAudio (k + 1)
        = sched_step hDvi hSync hAudio (sched_iter hDvi hSync hAudio k) := by
      unfold sched_iter
      rw [Function.iterate_succ_apply']
    rw [hstep]
    unfold sched_step
    dsimp only
    split_ifs <;> (try dsimp only) <;> rw [ih] <;> ring

theorem sched_step_toggle (hDvi hSync hAudio : Nat) (st : SchedState) :
    (sched_step hDvi hSync hAudio st).clk_dvi
      = (if st.time / 1000 % hDvi = 0 then !st.clk_dvi else st.clk_dvi) ∧
    (sched_step hDvi hSync hAudio st).clk_sync
      = (if st.time / 1000 % hSync = 0 then !st.clk_sync else st.clk_sync) ∧
    (sched_step hDvi hSync hAudio st).clk_audio
      = (if st.time / 1000 % hAudio = 0 then !st.clk_audio else st.clk_audio) := by
  unfold sched_step
  dsimp only
  refine ⟨?_, ?_, ?_⟩ <;> split_ifs <;> rfl

/-- C8: at each scheduler step, a domain's clock level toggles exactly
when the step's timestamp (`time / 1000`, which equals the step index)
is an exact multiple of that domain's half period; hence at most one
toggle per domain per step, and every exact multiple produces exactly
one toggle. -/
theorem c8_toggle_iff (hDvi hSync hAudio n : Nat) :
    ((sched_iter hDvi hSync hAudio (n + 1)).clk_dvi
        ≠ (sched_iter hDvi hSync hAudio n).clk_dvi ↔ n % hDvi = 0) ∧
    ((sched_iter hDvi hSync hAudio (n + 1)).clk_sync
        ≠ (sched_iter hDvi hSync hAudio n).clk_sync ↔ n % hSync = 0) ∧
    ((sched_iter hDvi hSync hAudio (n + 1)).clk_audio
        ≠ (sched_iter hDvi hSync hAudio n).clk_audio ↔ n % hAudio = 0) := by
  have hts : (sched_iter hDvi hSync hAudio n).time / 1000 = n := by
    rw [sched_time]
    omega
  have hstep : sched_iter hDvi hSync hAudio (n + 1)
      = sched_step hDvi hSync hAudio (sched_iter hDvi hSync hAudio n) := by
    unfold sched_iter
    rw [Function.iterate_succ_apply']
  obtain ⟨e1, e2, e3⟩ :=
    sched_step_toggle hDvi hSync hAudio (sched_iter hDvi hSync hAudio n)
  rw [hstep, e1, e2, e3, hts]
  refine ⟨?_, ?_, ?_⟩ <;>
  · constructor
    · intro hne
      by_contra hc
      rw [if_neg hc] at hne
      exact hne rfl
    · intro hz
      rw [if_pos hz]
      cases (sched_iter hDvi hSync hAudio n).clk_dvi <;> simp
      
/-- Disjoint-lane bitwise-or composition of four bytes equals their
weighted sum. -/
theorem lor4_eq (b0 b1 b2 b3 : Nat) (h0 : b0 < 256) (h1 : b1 < 256) (h2 : b2 < 256)
    (h3 : b3 < 256) :
    (b3 <<< 24) ||| (b2 <<< 16) ||| (b1 <<< 8) ||| b0
      = 16777216 * b3 + 65536 * b2 + 256 * b1 + b0 := by
  have e3 : b3 <<< 24 = 2 ^ 24 * b3 := by rw [Nat.shiftLeft_eq]; ring
  have e2 : b2 <<< 16 = 2 ^ 16 * b2 := by rw [Nat.shiftLeft_eq]; ring
  have e1 : b1 <<< 8 = 2 ^ 8 * b1 := by rw [Nat.shiftLeft_eq]; ring
  rw [e3, e2, e1,
      ← Nat.mul_add_lt_is_or (show 2 ^ 16 * b2 < 2 ^ 24 by omega) b3,
      show 2 ^ 24 * b3 + 2 ^ 16 * b2 = 2 ^ 16 * (2 ^ 8 * b3 + b2) from by ring,
      ← Nat.mul_add_lt_is_or (show 2 ^ 8 * b1 < 2 ^ 16 by omega) (2 ^ 8 * b3 + b2),
      show 2 ^ 16 * (2 ^ 8 * b3 + b2) + 2 ^ 8 * b1
        = 2 ^ 8 * (2 ^ 16 * b3 + 2 ^ 8 * b2 + b1) from by ring,
      ← Nat.mul_add_lt_is_or (show b0 < 2 ^ 8 by omega) (2 ^ 16 * b3 + 2 ^ 8 * b2 + b1)]
  ring

theorem psram_write_word_bytes (m : Nat → Nat) (p w : Nat) :
    psram_write_word m p w p = (w >>> 0) % 256 ∧
    psram_write_word m p w (p + 1) = (w >>> 8) % 256 ∧
    psram_write_word m p w (p + 2) = (w >>> 16) % 256 ∧
    psram_write_word m p w (p + 3) = (w >>> 24) % 256 := by
  unfold psram_write_word
  refine ⟨?_, ?_, ?_, ?_⟩
  · rw [Function.update_noteq (by omega), Function.update_noteq (by omega),
        Function.update_noteq (by omega), Function.update_same]
  · rw [Function.update_noteq (by omega), Function.update_noteq (by omega),
        Function.update_same]
  · rw [Function.update_noteq (by omega), Function.update_same]
  · rw [Function.update_same]

theorem psram_write_word_other (m : Nat → Nat) (p w a : Nat)
    (h : a < p ∨ p + 3 < a) : psram_write_word m p w a = m a := by
  unfold psram_write_word
  rw [Function.update_noteq (by omega), Function.update_noteq (by omega),
      Function.update_noteq (by omega), Function.update_noteq (by omega)]

theorem psram_read_of_write (m : Nat → Nat) (p w : Nat) (hw : w < 4294967296) :
    psram_read_word (psram_write_word m p w) p = w := by
  obtain ⟨e0, e1, e2, e3⟩ := psram_write_word_bytes m p w
  unfold psram_read_word
  rw [e0, e1, e2, e3,
      lor4_eq _ _ _ _ (by omega) (by omega) (by omega) (by omega)]
  simp only [Nat.shiftRight_eq_div_pow]
  omega

theorem psram_post_edge_mem (inp : PSRAMIn) (st : PSRAMState) (a : Nat)
    (h : inp.clk_sync = true → inp.write_ready = true →
      a < inp.address_ptr ∨ inp.address_ptr + 3 < a) :
    (psram_post_edge inp st).mem a = st.mem a := by
  unfold psram_post_edge
  dsimp only
  by_cases hc : inp.clk_sync = true
  · by_cases hw : inp.write_ready = true
    · have hd := h hc hw
      by_cases hr : inp.read_ready = true <;> by_cases hi : inp.idle = 1 <;>
        simp [hc, hw, hr, hi, psram_write_word_other _ _ _ _ hd]
    · by_cases hr : inp.read_ready = true <;> by_cases hi : inp.idle = 1 <;>
        simp [hc, hw, hr, hi]
  · by_cases hi : inp.idle = 1 <;> simp [hc, hi]

theorem psram_run_mem (inps : List PSRAMIn) (st : PSRAMState) (a : Nat)
    (h : ∀ i ∈ inps, i.clk_sync = true → i.write_ready = true →
        a < i.address_ptr ∨ i.address_ptr + 3 < a) :
    (psram_run inps st).mem a = st.mem a := by
  induction inps generalizing st with
  | nil => rfl
  | cons i is ih =>
    show (psram_run is (psram_post_edge i st)).mem a = st.mem a
    rw [ih (psram_post_edge i st) (fun j hj => h j (List.mem_cons_of_mem i hj)),
        psram_post_edge_mem i st a (h i (List.mem_cons_self i is))]

theorem psram_post_edge_read (inp : PSRAMIn) (st : PSRAMState)
    (hc : inp.clk_sync = true) (hr : inp.read_ready = true) :
    (psram_post_edge inp st).read_data_view
      = psram_read_word st.mem inp.address_ptr := by
  unfold psram_post_edge
  dsimp only
  by_cases hw : inp.write_ready = true <;> by_cases hi : inp.idle = 1 <;>
    simp [hc, hr, hw, hi]

theorem psram_post_edge_write (inp : PSRAMIn) (st : PSRAMState)
    (hc : inp.clk_sync = true) (hw : inp.write_ready = true) :
    (psram_post_edge inp st).mem
      = psram_write_word st.mem inp.address_ptr inp.write_data := by
  unfold psram_post_edge
  dsimp only
  by_cases hr : inp.read_ready = true <;> by_cases hi : inp.idle = 1 <;>
    simp [hc, hr, hw, hi]

theorem psram_read_word_congr (m1 m2 : Nat → Nat) (p : Nat)
    (h : ∀ a, p ≤ a → a ≤ p + 3 → m1 a = m2 a) :
    psram_read_word m1 p = psram_read_word m2 p := by
  unfold psram_read_word
  rw [h p (by omega) (by omega), h (p + 1) (by omega) (by omega),
      h (p + 2) (by omega) (by omega), h (p + 3) (by omega) (by omega)]

/-- C3: a serviced write of word `W` to an in-bounds address `A` on a
memory-clock high phase, followed by any interleaving of edge calls
whose writes do not overlap bytes `A..A+3`, followed by a read of `A`,
presents exactly `W` on the read-data output: the write stores the
four bytes little-endian and the read recomposes them little-endian. -/
theorem c3_write_read_roundtrip (st0 : PSRAMState) (A W : Nat)
    (hW : W < 4294967296) (hA : A + 3 < psram_size_bytes)
    (r0 : Bool) (i0 : Nat) (mids : List PSRAMIn)
    (hmids : ∀ i ∈ mids, i.clk_sync = true → i.write_ready = true →
        i.address_ptr + 3 < A ∨ A + 3 < i.address_ptr)
    (wf : Bool) (wd : Nat) (i1 : Nat) :
    (psram_post_edge ⟨true, true, wf, A, wd, i1⟩
      (psram_run mids
        (psram_post_edge ⟨true, r0, true, A, W, i0⟩ st0))).read_data_view = W := by
  rw [psram_post_edge_read _ _ rfl rfl]
  have hb : ∀ a, A ≤ a → a ≤ A + 3 →
      (psram_run mids (psram_post_edge ⟨true, r0, true, A, W, i0⟩ st0)).mem a
        = psram_write_word st0.mem A W a := by
    intro a ha1 ha2
    rw [psram_run_mem mids _ a (fun i hi hic hiw => by
          have := hmids i hi hic hiw
          omega),
        psram_post_edge_write _ _ rfl rfl]
  rw [psram_read_word_congr _ (psram_write_word st0.mem A W) A hb]
  exact psram_read_of_write st0.mem A W hW

theorem c3_witness :
    (psram_post_edge ⟨true, true, false, 256, 0, 0⟩
      (psram_run []
        (psram_post_edge ⟨true, false, true, 256, 3735928559, 0⟩
          PSRAMState.start))).read_data_view = 3735928559 :=
  c3_write_read_roundtrip PSRAMState.start 256 3735928559 (by norm_num)
    (by norm_num [psram_size_bytes]) false 0 [] (by simp) false 0 0

theorem toInt16_two_mul_even (x : Int) : toInt16 (2 * x) % 2 = 0 := by
  unfold toInt16
  split_ifs <;> omega

theorem capturedEven_sct (ch : Nat) (st : I2SState) (h : CapturedEven st) :
    CapturedEven (start_channel_transmission ch st) := by
  intro c v hv
  rw [sct_captured ch c st] at hv
  exact h c v hv

theorem capturedEven_set_last (st : I2SState) (l b : Bool) (h : CapturedEven st) :
    CapturedEven { st with last_lrck := l, last_bick := b } := h

theorem capturedEven_frame_start (cfg : I2SConfig) (st : I2SState)
    (h : CapturedEven st) : CapturedEven (frame_start cfg st) := by
  unfold frame_start
  apply capturedEven_sct
  intro c v hv
  exact h c v hv

theorem capturedEven_progress (cfg : I2SConfig) (st : I2SState)
    (h : CapturedEven st) : CapturedEven (bick_fall_progress cfg st) := by
  unfold bick_fall_progress
  dsimp only
  split_ifs with hc
  · apply capturedEven_sct
    intro c v hv
    exact h c v hv
  · intro c v hv
    exact h c v hv

theorem capturedEven_handle_tx (st : I2SState) (h : CapturedEven st) :
    CapturedEven (handle_tx_bit st) := by
  intro c v hv
  rw [handle_tx_channels] at hv
  exact h c v hv

theorem capturedEven_handle_rx (inp : I2SIn) (st : I2SState) (h : CapturedEven st) :
    CapturedEven (handle_rx_bit inp st) := by
  unfold handle_rx_bit
  split_ifs with h1 h2
  · intro c v hv
    dsimp only at hv
    by_cases hc : c = st.current_channel
    · subst hc
      rw [Function.update_same] at hv
      unfold rx_finalize at hv
      dsimp only at hv
      rcases List.mem_append.mp hv with hv1 | hv2
      · exact h _ v hv1
      · rw [List.mem_singleton] at hv2
        subst hv2
        exact toInt16_two_mul_even _
    · rw [Function.update_noteq hc] at hv
      exact h c v hv
  · intro c v hv
    dsimp only at hv
    by_cases hc : c = st.current_channel
    · subst hc
      rw [Function.update_same] at hv
      rw [rx_shift_in_captured] at hv
      exact h _ v hv
    · rw [Function.update_noteq hc] at hv
      exact h c v hv
  · exact h

theorem capturedEven_post_edge (cfg : I2SConfig) (inp : I2SIn) (st : I2SState)
    (h : CapturedEven st) : CapturedEven (post_edge cfg inp st) := by
  unfold post_edge
  dsimp only
  split_ifs <;>
    exact capturedEven_set_last _ _ _ (by
      repeat
        first
          | exact h
          | apply capturedEven_handle_tx
          | apply capturedEven_handle_rx
          | apply capturedEven_progress
          | apply capturedEven_frame_start)

theorem capturedEven_inject (ch : Nat) (v : Int) (st : I2SState)
    (h : CapturedEven st) : CapturedEven (inject_sample ch v st) := by
  unfold inject_sample
  split_ifs with hc
  · intro c w hw
    dsimp only at hw
    by_cases he : c = ch
    · rw [he, Function.update_same] at hw
      exact h _ w hw
    · rw [Function.update_noteq he] at hw
      exact h c w hw
  · exact h

theorem capturedEven_start : CapturedEven I2SState.start := by
  intro c v hv
  exact absurd hv (List.not_mem_nil v)

theorem capturedEven_run (cfg : I2SConfig) (evs : List I2SEvent) :
    CapturedEven (i2s_run cfg evs) := by
  unfold i2s_run
  have hgen : ∀ (l : List I2SEvent) (st : I2SState), CapturedEven st →
      CapturedEven (l.foldl (i2s_apply cfg) st) := by
    intro l
    induction l with
    | nil => intro st h; exact h
    | cons e es ih =>
      intro st h
      show CapturedEven (es.foldl (i2s_apply cfg) (i2s_apply cfg st e))
      apply ih
      cases e with
      | edge inp => exact capturedEven_post_edge cfg inp st h
      | inject ch v => exact capturedEven_inject ch v st h
  exact hgen evs I2SState.start capturedEven_start

/-- C10: in every run of the audio driver (any sequence of edge calls
and sample injections from the freshly constructed state, under either
configuration), every value `get_captured_samples` returns is even,
because each captured sample is left-shifted by one before being
appended. -/
theorem c10_captured_even (cfg : I2SConfig) (evs : List I2SEvent) (ch : Nat) (v : Int)
    (hv : v ∈ get_captured_samples (i2s_run cfg evs) ch) : v % 2 = 0 := by
  unfold get_captured_samples at hv
  split_ifs at hv with hc
  · exact capturedEven_run cfg evs ch v hv
  · exact absurd hv (List.not_mem_nil v)

theorem i2s_run_period_events (cfg : I2SConfig) (bits : List Nat) :
    i2s_run cfg (period_events bits) = run_periods cfg false bits I2SState.start := by
  unfold i2s_run run_periods period_events
  generalize I2SState.start = st
  induction bits generalizing st with
  | nil => rfl
  | cons b bs ih =>
    simp only [List.map_cons, List.flatten_cons]
    rw [List.foldl_append]
    exact ih _

theorem c10_witness : (-2 : Int) % 2 = 0 :=
  c10_captured_even i2sHeaderCfg (period_events (List.replicate 16 1)) 0 (-2) (by
    have h := (rx_slot_capture i2sHeaderCfg false I2SState.start
      (List.replicate 16 1) (by decide) (by decide) rfl rfl rfl rfl).1
    rw [show I2SState.start.current_channel = 0 from rfl] at h
    unfold get_captured_samples
    rw [if_pos (by norm_num), i2s_run_period_events, h]
    decide)

/-- C4 (evaluation of `dvi.h` at the failing input, active size 2 by
2): a vertical sync then exactly 4 data-enable ticks.  The frame
counter increments exactly once and only at the final tick, as the
claim demands, but pixel (0, 0) is never written (the cursor is
pre-incremented before each store) and the cursor's `y` ends at 2, the
active height, instead of resetting to zero, so the next store lands
outside the frame buffer. -/
theorem c4_code_eval :
    (dvi_run 2 2 (⟨true, true, false, 0, 0, 0⟩
        :: List.replicate 4 ⟨true, false, true, 7, 8, 9⟩) DVIState.start).frames = 1 ∧
    (dvi_run 2 2 (⟨true, true, false, 0, 0, 0⟩
        :: List.replicate 3 ⟨true, false, true, 7, 8, 9⟩) DVIState.start).frames = 0 ∧
    (dvi_run 2 2 (⟨true, true, false, 0, 0, 0⟩
        :: List.replicate 4 ⟨true, false, true, 7, 8, 9⟩) DVIState.start).y = 2 ∧
    (0, 0) ∉ (dvi_run 2 2 (⟨true, true, false, 0, 0, 0⟩
        :: List.replicate 4 ⟨true, false, true, 7, 8, 9⟩) DVIState.start).write_log := by
  decide

/-- C5 (evaluation of `dvi.h` at the failing input, active size 2 by
2): after a vertical sync and 4 data-enable ticks, the recorded store
positions are (1,0), (0,1), (1,1), (0,2): the final store lands at
row y = 2, which is outside the 2 by 2 active window (and past the end
of the heap buffer in the C++). -/
theorem c5_code_eval :
    (dvi_run 2 2 (⟨true, true, false, 0, 0, 0⟩
        :: List.replicate 4 ⟨true, false, true, 7, 8, 9⟩) DVIState.start).write_log
      = [(1, 0), (0, 1), (1, 1), (0, 2)] ∧
    (0, 2) ∈ (dvi_run 2 2 (⟨true, true, false, 0, 0, 0⟩
        :: List.replicate 4 ⟨true, false, true, 7, 8, 9⟩) DVIState.start).write_log ∧
    ¬ (0, 2).2 < 2 := by
  decide

end Tiliqua
